import Mathlib

/-!
Shallow embedding of `taskcat/cli_core.py` (class `CliCore`): a
reflection-driven CLI builder.  Python callables are modelled by their
introspectable data (signature parameters and docstring), parsed argparse
namespaces by association lists from destination names to values, and the
dispatcher by a function producing the concrete plugin invocation that the
Python code would perform.  Python string operations are modelled over the
character lists of Lean strings (Python semantics: one element per code
point).
-/

/-- Python `len(s)`: the number of characters. -/
def pyLen (s : String) : Nat :=
  s.data.length

/-- Python slice `s[n:]`: drop the first `n` characters. -/
def pyDropChars (s : String) (n : Nat) : String :=
  String.mk (s.data.drop n)

/-- Python slice `s[:1]` (used as `name[0]` prefixed by `-`): the first
character, as a string; empty when the string is empty. -/
def pyTakeOne (s : String) : String :=
  String.mk (s.data.take 1)

/-- Python `s.strip()` with no argument: remove leading and trailing
whitespace. -/
def pyStrip (s : String) : String :=
  String.mk (((s.data.dropWhile Char.isWhitespace).reverse.dropWhile
    Char.isWhitespace).reverse)

/-- Python `s.startswith(p)`: `p` is a prefix of `s`. -/
def pyStartsWith (s p : String) : Bool :=
  List.isPrefixOf p.data s.data

/-- Python `s.lower()` (restricted to ASCII letters, the only kind appearing
in Python identifiers and class names). -/
def pyLower (s : String) : String :=
  String.mk (s.data.map Char.toLower)

/-- Python `s.replace("_", "-")`, the only replacement the code performs:
a single-character substitution. -/
def pyReplaceUnderscores (s : String) : String :=
  String.mk (s.data.map (fun c => if c = '_' then '-' else c))

/-- Python `s.endswith(" ")`: the last character is a space. -/
def endsWithSpace (val : String) : Bool :=
  val.data.getLast? = Option.some ' '

/-- Helper for `s.split("\n")`: accumulate the current line (reversed) and
emit it at each newline; the trailing accumulator always becomes a final
line, so `"a\n".split("\n") == ["a", ""]` and `"".split("\n") == [""]`. -/
def splitLinesAux : List Char → List Char → List String
  | [], acc => [String.mk acc.reverse]
  | c :: cs, acc =>
    if c = '\n' then String.mk acc.reverse :: splitLinesAux cs []
    else splitLinesAux cs (c :: acc)

/-- Python `s.split("\n")`. -/
def pySplitLines (s : String) : List String :=
  splitLinesAux s.data []

/-- A Python runtime value as it can appear as a parameter default or a parsed
argument value: a string, an integer, a boolean, or `None`. -/
inductive PyValue where
  | str (s : String)
  | int (n : Int)
  | bool (b : Bool)
  | none
deriving DecidableEq, Repr

/-- Python truthiness (`bool(v)`), as used by `if not subcommand:` in
`CliCore.run`. -/
def pyFalsy : PyValue → Bool
  | .str s => s = ""
  | .int n => n = 0
  | .bool b => !b
  | .none => true

/-- A type annotation on a Python parameter: `str`, `int`, `bool`, some other
annotation, or absent (`inspect.Parameter.empty`). -/
inductive Ann where
  | aStr
  | aInt
  | aBool
  | aOther
  | aNone
deriving DecidableEq, Repr

/-- One formal parameter from `inspect.signature(item).parameters`:
its name, its default (`Option.none` models `inspect.Parameter.empty`,
i.e. no default) and its type annotation, `annot` (`Ann.aNone` models an
absent one). -/
structure Param where
  name : String
  default : Option PyValue
  annot : Ann
deriving DecidableEq, Repr

/-- An introspectable Python callable: its docstring (`__doc__`, absent when
`None`) and its ordered signature parameters. -/
structure PyCallable where
  doc : Option String
  params : List Param
deriving DecidableEq, Repr

/-- Scan of the docstring lines performed by `CliCore._get_param_help`: walk
the lines in order; on the first line whose stripped form starts with the tag,
return that stripped line with the tag removed, stripped again (Python:
`line.strip()[len(tag):].strip()`, then `break`); otherwise fall through to
the empty string. -/
def findParamHelp (tag : String) : List String → String
  | [] => ""
  | l :: ls =>
    if pyStartsWith (pyStrip l) tag then pyStrip (pyDropChars (pyStrip l) (pyLen tag))
    else findParamHelp tag ls

/-- Model of `CliCore._get_param_help(item, param)`: operate on the
callable's docstring (the constructor's one when the item is a class — both
are modelled by the `doc` field); return `""` when there is no docstring,
else scan the lines split on newline for the first one whose stripped form
starts with `:param <param>:`. -/
def get_param_help (item : PyCallable) (param : String) : String :=
  match item.doc with
  | Option.none => ""
  | Option.some d => findParamHelp (":param " ++ param ++ ":") (pySplitLines d)

/-- Model of `CliCore._get_help(item)`: return `""` when there is no
docstring, else accumulate `line.strip()` over every line whose stripped form
does not start with `:`, and strip the accumulated result. -/
def get_help (item : PyCallable) : String :=
  match item.doc with
  | Option.none => ""
  | Option.some d =>
    pyStrip ((pySplitLines d).foldl
      (fun acc l => if !(pyStartsWith (pyStrip l) ":") then acc ++ pyStrip l else acc)
      "")

/-- The coercion on line 61 of `cli_core.py`:
`val_type = param.annotation if param.annotation in [str, int, bool] else str`.
The result is itself one of the three type objects, modelled as `Ann`. -/
def valType (a : Ann) : Ann :=
  if a ∈ [Ann.aStr, Ann.aInt, Ann.aBool] then a else Ann.aStr

/-- The keyword arguments `CliCore._get_params` attaches to one argparse
argument.  `action` and `help` are always present; `required`, `default` and
`dest` are present exactly when the code executes `kwargs.update({...})` for
an optional parameter (so `default` holds the declared default, which may be
`PyValue.none`); `type` is present exactly when the action is `"store"`. -/
structure ArgKwargs where
  action : String
  help : String
  required : Option Bool := Option.none
  default : Option PyValue := Option.none
  dest : Option String := Option.none
  type : Option Ann := Option.none
deriving DecidableEq, Repr

/-- One element of the list built by `CliCore._get_params`: the positional
name or flag strings, and the keyword arguments. -/
structure ArgEntry where
  flags : List String
  kwargs : ArgKwargs
deriving DecidableEq, Repr

/-- The loop body of `CliCore._get_params` for one (non-`self`) parameter:
a parameter is required when its default is absent; derive the value type via
the `[str, int, bool]` membership check; booleans get action `"store_true"`,
everything else `"store"`; the argument name is the lower-cased parameter
name; for an optional parameter underscores become hyphens, a short/long
flag pair is synthesized, and `required`/`default`/`dest` are recorded. -/
def paramEntry (item : PyCallable) (param : Param) : ArgEntry :=
  let required := param.default.isNone
  let val_type := valType param.annot
  let action := if val_type = Ann.aBool then "store_true" else "store"
  let param_help := get_param_help item param.name
  let name := pyLower param.name
  if required then
    { flags := [name],
      kwargs := { action := action, help := param_help,
                  type := if action = "store" then Option.some val_type
                          else Option.none } }
  else
    let name := pyReplaceUnderscores name
    { flags := ["-" ++ pyTakeOne name, "--" ++ name],
      kwargs := { action := action, help := param_help,
                  required := Option.some false,
                  default := param.default,
                  dest := Option.some param.name,
                  type := if action = "store" then Option.some val_type
                          else Option.none } }

/-- The parameter loop of `CliCore._get_params`, emitting entries in
signature order and skipping `self`. -/
def paramLoop (item : PyCallable) : List Param → List ArgEntry
  | [] => []
  | param :: rest =>
    if param.name = "self" then paramLoop item rest
    else paramEntry item param :: paramLoop item rest

/-- Model of `CliCore._get_params(item)`: walk the signature parameters in
order, skipping `self`, appending one synthesized argparse argument per
remaining parameter. -/
def get_params (item : PyCallable) : List ArgEntry :=
  paramLoop item item.params

/-- First-occurrence lookup in an association list, modelling Python `dict`
subscripting (keys are unique in every dict the code builds). -/
def alookup {α : Type} : List (String × α) → String → Option α
  | [], _ => Option.none
  | (k, v) :: rest, key => if k = key then Option.some v else alookup rest key

/-- Python `dict` assignment `d[k] = v`: overwrite in place when the key is
present (keys are unique in every dict the code builds), append at the end
otherwise (insertion order preserved). -/
def pyDictSet {α : Type} (k : String) (v : α) :
    List (String × α) → List (String × α)
  | [] => [(k, v)]
  | kv :: rest => if kv.1 = k then (k, v) :: rest else kv :: pyDictSet k v rest

/-- The concrete plugin invocation `CliCore.run` performs: either a direct
construction `command(**kwargs)`, or `getattr(command(**ctorKwargs),
method)(**kwargs)`.  Classes are identified by an opaque id. -/
inductive Invocation where
  | construct (cls : Nat) (kwargs : List (String × PyValue))
  | methodCall (cls : Nat) (ctorKwargs : List (String × PyValue)) (method : String)
      (kwargs : List (String × PyValue))
deriving DecidableEq, Repr

/-- Model of `CliCore.run(self)`: read the parsed namespace dict; look the
command type up under the `"_command"` key; take the subcommand from
`"_subcommand"` when present, else the empty string; drop every key starting
with `"_"`; construct directly when the subcommand is falsy, otherwise
instantiate with zero arguments and call the named method with all remaining
keys.  `none` models the `KeyError`/`TypeError` the Python code would
raise. -/
def run (modules : List (String × Nat)) (parsed_args : List (String × PyValue)) :
    Option Invocation :=
  match alookup parsed_args "_command" with
  | Option.none => Option.none
  | Option.some cmdVal =>
    match cmdVal with
    | .str c =>
      match alookup modules c with
      | Option.none => Option.none
      | Option.some cls =>
        let subcommand := (alookup parsed_args "_subcommand").getD (.str "")
        let args := parsed_args.filter (fun kv => !(pyStartsWith kv.1 "_"))
        if pyFalsy subcommand then Option.some (.construct cls args)
        else
          match subcommand with
          | .str s => Option.some (.methodCall cls [] s args)
          | _ => Option.none
    | _ => Option.none

/-- Python falsiness of the optional argument vector handed to
`CliCore.parse` (`None` and the empty list are falsy). -/
def pyFalsyArgv (args : Option (List String)) : Bool :=
  match args with
  | Option.none => true
  | Option.some l => l.isEmpty

/-- The argument-vector defaulting of `CliCore.parse(self, args=None)`:
`if not args: args = []`, then that vector is handed to
`parser.parse_args(args)`.  This returns the vector actually parsed. -/
def parse_args_vector (args : Option (List String)) : List String :=
  if pyFalsyArgv args then [] else args.getD []

/-- Template `CliCore.USAGE`: the three-level usage grammar. -/
def USAGE : String :=
  "{prog}{global_opts}{command}{command_opts}{subcommand}{subcommand_opts}"

/-- One token of a Python format template: a literal character, or a plain
`{field}` replacement field. -/
inductive FmtTok where
  | lit (c : Char)
  | field (f : String)
deriving DecidableEq, Repr

/-- Scan of a Python format template restricted to plain `{field}`
replacement fields (the only kind `USAGE` contains): outside a field copy
characters through as literal tokens, inside a field accumulate the field
name until `}`.  `Option.none` models the `ValueError` Python raises on an
unterminated field. -/
def parseFmt : List Char → String → Bool → Option (List FmtTok)
  | [], _, false => Option.some []
  | [], _, true => Option.none
  | c :: cs, _, false =>
    if c = '{' then parseFmt cs "" true
    else (parseFmt cs "" false).map (fun ts => FmtTok.lit c :: ts)
  | c :: cs, acc, true =>
    if c = '}' then (parseFmt cs "" false).map (fun ts => FmtTok.field acc :: ts)
    else parseFmt cs (acc.push c) true

/-- Splice the dict values into the scanned template, concatenating left to
right; `Option.none` models the `KeyError` Python raises on a missing key. -/
def renderFmt (d : List (String × String)) : List FmtTok → Option String
  | [] => Option.some ""
  | FmtTok.lit c :: rest => (renderFmt d rest).map (fun t => String.mk [c] ++ t)
  | FmtTok.field f :: rest =>
    match alookup d f with
    | Option.some v => (renderFmt d rest).map (fun t => v ++ t)
    | Option.none => Option.none

/-- Python `template.format(**args)` for plain replacement fields. -/
def pyFormat (tmpl : String) (d : List (String × String)) : Option String :=
  match parseFmt tmpl.data "" false with
  | Option.some ts => renderFmt d ts
  | Option.none => Option.none

/-- The per-value step of the trailing-space loop in `CliCore._build_usage`:
`if val and not val.endswith(" "): args[key] = f"{val} "` — append one space
to a truthy (non-empty) value that does not already end in a space. -/
def spacePad (val : String) : String :=
  if val ≠ "" ∧ ¬ (endsWithSpace val) then val ++ " " else val

/-- Model of `CliCore._build_usage(self, args=None)`: default the dict to
empty, force `prog` to the program name, fill each absent slot with its
literal placeholder token, append a trailing space to every truthy value not
already ending in one, and format `USAGE` with the resulting dict. -/
def build_usage (progName : String) (args₀ : Option (List (String × String))) :
    Option String :=
  let a := pyDictSet "prog" progName (args₀.getD [])
  let a := if a.any (fun kv => kv.1 = "command") then a
           else pyDictSet "command" "<command>" a
  let a := if a.any (fun kv => kv.1 = "subcommand") then a
           else pyDictSet "subcommand" "[subcommand]" a
  let a := if a.any (fun kv => kv.1 = "global_opts") then a
           else pyDictSet "global_opts" "[args]" a
  let a := if a.any (fun kv => kv.1 = "command_opts") then a
           else pyDictSet "command_opts" "[args]" a
  let a := if a.any (fun kv => kv.1 = "subcommand_opts") then a
           else pyDictSet "subcommand_opts" "[args]" a
  let a := a.map (fun kv => (kv.1, spacePad kv.2))
  pyFormat USAGE a

/-- Lexicographic comparison of character lists by code point, the order
Python uses to compare strings (a proper prefix sorts first). -/
def charListLe : List Char → List Char → Bool
  | [], _ => true
  | _ :: _, [] => false
  | a :: as, b :: bs =>
    if a.toNat < b.toNat then true
    else if b.toNat < a.toNat then false
    else charListLe as bs

/-- Python string comparison `a <= b` (code-point lexicographic). -/
def nameLe (a b : String) : Bool :=
  charListLe a.data b.data

/-- Insertion into a name-sorted member list, preserving the relative order
of equal names (Python's sort is stable). -/
def insertByName {α : Type} (x : String × α) :
    List (String × α) → List (String × α)
  | [] => [x]
  | y :: ys => if nameLe x.1 y.1 then x :: y :: ys else y :: insertByName x ys

/-- The sort `inspect.getmembers` applies to the `(name, value)` pairs it
returns: ascending by member name. -/
def sortByName {α : Type} : List (String × α) → List (String × α)
  | [] => []
  | x :: xs => insertByName x (sortByName xs)

/-- Model of `CliCore._get_plugin_modules(self)`: enumerate the classes of
the plugin package via `inspect.getmembers` (which yields them sorted
ascending by name) and build `{name.lower(): cls}` — a dict comprehension,
so a later entry whose lowered name collides with an earlier one overwrites
it. -/
def get_plugin_modules (members : List (String × Nat)) : List (String × Nat) :=
  (sortByName members).foldl (fun d kv => pyDictSet (pyLower kv.1) kv.2 d) []

/-! ## Theorems -/

theorem string_join_cons (s : String) (l : List String) :
    String.join (s :: l) = s ++ String.join l := by
  apply String.ext
  simp

theorem findParamHelp_of_all_not (tag : String) :
    ∀ ls : List String,
      ls.all (fun l => !(pyStartsWith (pyStrip l) tag)) = true →
      findParamHelp tag ls = "" := by
  intro ls
  induction ls with
  | nil => intro _; rfl
  | cons l ls ih =>
    intro h
    simp only [List.all_cons, Bool.and_eq_true, Bool.not_eq_true'] at h
    simp [findParamHelp, h.1, ih (by simpa using h.2)]

theorem findParamHelp_of_first (tag : String) :
    ∀ (pre : List String) (line : String) (post : List String),
      (∀ l ∈ pre, pyStartsWith (pyStrip l) tag = false) →
      pyStartsWith (pyStrip line) tag = true →
      findParamHelp tag (pre ++ line :: post) =
        pyStrip (pyDropChars (pyStrip line) (pyLen tag)) := by
  intro pre
  induction pre with
  | nil => intro line post _ hline; simp [findParamHelp, hline]
  | cons l ls ih =>
    intro line post hpre hline
    have hl : pyStartsWith (pyStrip l) tag = false := hpre l (by simp)
    simp only [List.cons_append, findParamHelp, hl]
    simpa using ih line post (fun x hx => hpre x (by simp [hx])) hline

/-- C7: for every callable and parameter name, parameter-help extraction
returns the trailing text (after the tag, stripped) of the first docstring
line whose stripped form starts with the exact marker `:param <name>:`;
it returns the empty text when the callable has no docstring or no line
matches, never failing on absent documentation, and lines before the first
match never contribute to the result. -/
theorem get_param_help_first_match :
    (∀ ps p, get_param_help ⟨Option.none, ps⟩ p = "") ∧
    (∀ d ps p,
      (pySplitLines d).all
        (fun l => !(pyStartsWith (pyStrip l) (":param " ++ p ++ ":"))) = true →
      get_param_help ⟨Option.some d, ps⟩ p = "") ∧
    (∀ d ps p pre line post,
      pySplitLines d = pre ++ line :: post →
      (∀ l ∈ pre, pyStartsWith (pyStrip l) (":param " ++ p ++ ":") = false) →
      pyStartsWith (pyStrip line) (":param " ++ p ++ ":") = true →
      get_param_help ⟨Option.some d, ps⟩ p =
        pyStrip (pyDropChars (pyStrip line) (pyLen (":param " ++ p ++ ":")))) := by
  refine ⟨fun ps p => rfl, fun d ps p h => ?_, fun d ps p pre line post hsplit hpre hline => ?_⟩
  · simpa [get_param_help] using findParamHelp_of_all_not _ _ h
  · simpa [get_param_help, hsplit] using findParamHelp_of_first _ pre line post hpre hline

/-- Closed instance of `get_param_help_first_match` at a concrete
docstring. -/
theorem get_param_help_first_match_witness :
    get_param_help ⟨Option.some "Build things.\n:param x: the x value", []⟩ "x" =
      "the x value" := by
  have h := get_param_help_first_match.2.2 "Build things.\n:param x: the x value"
    [] "x" ["Build things."] ":param x: the x value" []
    (by decide) (by decide) (by decide)
  rw [h]
  decide

/-- C8, counterexample: the summary of the docstring `"a \nb"` is `"ab"` —
the code concatenates the *stripped* lines — whereas concatenating the raw
documentation lines and trimming only the result would give `"a b"`; the
claim as stated therefore fails on the code. -/
theorem get_help_raw_concat_counterexample :
    get_help ⟨Option.some "a \nb", []⟩ = "ab" ∧
    ¬ (get_help ⟨Option.some "a \nb", []⟩ =
        pyStrip (String.join
          ((pySplitLines "a \nb").filter
            (fun l => !(pyStartsWith (pyStrip l) ":"))))) := by
  decide

theorem foldl_append_filter (P : String → Bool) (f : String → String) :
    ∀ (ls : List String) (acc : String),
      ls.foldl (fun a l => if !(P l) then a ++ f l else a) acc =
        acc ++ String.join ((ls.filter (fun l => !(P l))).map f) := by
  intro ls
  induction ls with
  | nil => intro acc; simp [String.join]
  | cons l ls ih =>
    intro acc
    simp only [List.foldl_cons]
    by_cases h : P l = true
    · have hstep : (if (!P l) = true then acc ++ f l else acc) = acc := by
        rw [h]; simp
      have hfil : List.filter (fun l => !(P l)) (l :: ls) =
          List.filter (fun l => !(P l)) ls := by simp [List.filter_cons, h]
      rw [hstep, ih, hfil]
    · have h' : P l = false := by simpa using h
      have hstep : (if (!P l) = true then acc ++ f l else acc) = acc ++ f l := by
        rw [h']; simp
      have hfil : List.filter (fun l => !(P l)) (l :: ls) =
          l :: List.filter (fun l => !(P l)) ls := by simp [List.filter_cons, h']
      rw [hstep, ih, hfil]
      simp [string_join_cons, String.append_assoc]

/-- C8, amended: for every callable, summary extraction returns the
concatenation of the *stripped* forms of all docstring lines that do not
begin (after stripping whitespace) with the character `:`, with the result
stripped, and returns the empty text without failing when the docstring is
absent.  (The claim as stated — concatenating the raw lines — fails; see
the counterexample.) -/
theorem get_help_trimmed_concat (ps : List Param) (d : String) :
    get_help ⟨Option.none, ps⟩ = "" ∧
    get_help ⟨Option.some d, ps⟩ =
      pyStrip (String.join
        (((pySplitLines d).filter
          (fun l => !(pyStartsWith (pyStrip l) ":"))).map pyStrip)) := by
  refine ⟨rfl, ?_⟩
  have h := foldl_append_filter (fun l => pyStartsWith (pyStrip l) ":") pyStrip
    (pySplitLines d) ""
  simp only [get_help, h, String.empty_append]

/-- C2, counterexample: when no argument vector is supplied, `parse` hands
the *empty* vector to the argument parser — so if the process had been
invoked with argv `["--debug"]`, the claimed defaulting to the process argv
would parse `["--debug"]`, but the code parses `[]`. -/
theorem parse_args_vector_counterexample :
    parse_args_vector Option.none = [] ∧
    parse_args_vector Option.none ≠ ["--debug"] := by
  decide

/-- C2, amended: when `parse` is called with no argument vector (or with an
empty one), the vector actually parsed is the empty vector — not the host
process's own invocation arguments — and a supplied non-empty vector is
parsed as given. -/
theorem parse_args_vector_empty_default (l : List String) :
    parse_args_vector Option.none = [] ∧
    parse_args_vector (Option.some []) = [] ∧
    (l ≠ [] → parse_args_vector (Option.some l) = l) := by
  refine ⟨rfl, rfl, fun h => ?_⟩
  cases l with
  | nil => exact absurd rfl h
  | cons x xs => simp [parse_args_vector, pyFalsyArgv]

/-- Closed instance of `parse_args_vector_empty_default` at a concrete
non-empty vector. -/
theorem parse_args_vector_empty_default_witness :
    parse_args_vector (Option.some ["lint"]) = ["lint"] :=
  (parse_args_vector_empty_default ["lint"]).2.2 (by decide)

/-- C3: for a parsed invocation that selected a command with no subcommand
key, `run` instantiates the command type with exactly the parsed parameters
whose keys do not start with `"_"` as keyword arguments — every other key is
stripped, nothing else is passed — and construction itself is the
invocation. -/
theorem run_construct_strips_selectors (modules : List (String × Nat))
    (args : List (String × PyValue)) (c : String) (cls : Nat)
    (hc : alookup args "_command" = Option.some (PyValue.str c))
    (hcls : alookup modules c = Option.some cls)
    (hsub : alookup args "_subcommand" = Option.none) :
    run modules args =
      Option.some (Invocation.construct cls
        (args.filter (fun kv => !(pyStartsWith kv.1 "_")))) ∧
    (∀ k v, (k, v) ∈ args.filter (fun kv => !(pyStartsWith kv.1 "_")) ↔
      ((k, v) ∈ args ∧ pyStartsWith k "_" = false)) := by
  constructor
  · simp [run, hc, hcls, hsub, pyFalsy]
  · intro k v
    simp [List.mem_filter]

/-- Closed instance of `run_construct_strips_selectors` at a command with
no subcommands. -/
theorem run_construct_strips_selectors_witness :
    run [("reporter", 3)]
      [("_command", PyValue.str "reporter"), ("verbose", PyValue.bool true)] =
      Option.some (Invocation.construct 3 [("verbose", PyValue.bool true)]) := by
  have h := (run_construct_strips_selectors [("reporter", 3)]
    [("_command", PyValue.str "reporter"), ("verbose", PyValue.bool true)]
    "reporter" 3 (by decide) (by decide) (by decide)).1
  rw [h]
  decide

/-- C1, counterexample: on the spec's own end-to-end scenario (command
`builder` with required constructor parameter `project_root`, subcommand
`compile` with parameter `optimize`), `run` instantiates the command type
with *zero* keyword arguments and passes *both* `project_root` and
`optimize` to the method — not `Builder(project_root=...)` followed by
`.compile(optimize=...)` as claimed. -/
theorem run_zero_arg_ctor_counterexample :
    run [("builder", 7)]
      [("_command", PyValue.str "builder"), ("_subcommand", PyValue.str "compile"),
       ("project_root", PyValue.str "/tmp/x"), ("optimize", PyValue.bool true)] =
      Option.some (Invocation.methodCall 7 [] "compile"
        [("project_root", PyValue.str "/tmp/x"), ("optimize", PyValue.bool true)]) ∧
    run [("builder", 7)]
      [("_command", PyValue.str "builder"), ("_subcommand", PyValue.str "compile"),
       ("project_root", PyValue.str "/tmp/x"), ("optimize", PyValue.bool true)] ≠
      Option.some (Invocation.methodCall 7 [("project_root", PyValue.str "/tmp/x")]
        "compile" [("optimize", PyValue.bool true)]) := by
  decide

/-- C1, amended: for every parsed invocation in which a subcommand was
selected, `run` instantiates the command type with *zero* keyword arguments
and invokes the named method on the new instance with *all* parsed
parameters whose keys do not start with `"_"` — constructor parameters,
global options and subcommand parameters alike — as keyword arguments. -/
theorem run_method_gets_all_params (modules : List (String × Nat))
    (args : List (String × PyValue)) (c : String) (cls : Nat) (s : String)
    (hc : alookup args "_command" = Option.some (PyValue.str c))
    (hcls : alookup modules c = Option.some cls)
    (hs : alookup args "_subcommand" = Option.some (PyValue.str s))
    (hne : s ≠ "") :
    run modules args =
      Option.some (Invocation.methodCall cls [] s
        (args.filter (fun kv => !(pyStartsWith kv.1 "_")))) := by
  simp [run, hc, hcls, hs, pyFalsy, hne]

/-- Closed instance of `run_method_gets_all_params` on the `builder`
scenario. -/
theorem run_method_gets_all_params_witness :
    run [("builder", 7)]
      [("_command", PyValue.str "builder"), ("_subcommand", PyValue.str "compile"),
       ("project_root", PyValue.str "/tmp/x"), ("optimize", PyValue.bool true)] =
      Option.some (Invocation.methodCall 7 [] "compile"
        [("project_root", PyValue.str "/tmp/x"), ("optimize", PyValue.bool true)]) := by
  have h := run_method_gets_all_params [("builder", 7)]
    [("_command", PyValue.str "builder"), ("_subcommand", PyValue.str "compile"),
     ("project_root", PyValue.str "/tmp/x"), ("optimize", PyValue.bool true)]
    "builder" 7 "compile" (by decide) (by decide) (by decide) (by decide)
  rw [h]
  decide

theorem paramLoop_map_eq {β : Type} (item : PyCallable) (g : Param → β)
    (e : ArgEntry → β)
    (hg : ∀ p : Param, ¬ (p.name = "self") → e (paramEntry item p) = g p) :
    ∀ ps : List Param,
      (paramLoop item ps).map e = (ps.filter (fun p => !(p.name = "self"))).map g := by
  intro ps
  induction ps with
  | nil => rfl
  | cons p rest ih =>
    by_cases h : p.name = "self"
    · simp [paramLoop, h, ih]
    · simp [paramLoop, h, ih, hg p h]

/-- C4, counterexample: for the optional parameter `Dry_Run` the code
synthesizes the flags `-d`/`--dry-run` — it lower-cases the name before the
hyphen replacement and takes the short-flag character from that lowered,
hyphenated form — whereas the claim's flag forms built from the raw name
would be `-D`/`--Dry-Run`; the claim as stated therefore fails on the
code. -/
theorem get_params_flags_counterexample :
    (get_params ⟨Option.none,
        [⟨"Dry_Run", Option.some (PyValue.bool false), Ann.aBool⟩]⟩).map
      (fun e => e.flags) = [["-d", "--dry-run"]] ∧
    ¬ ((get_params ⟨Option.none,
        [⟨"Dry_Run", Option.some (PyValue.bool false), Ann.aBool⟩]⟩).map
      (fun e => e.flags) =
        [["-" ++ pyTakeOne "Dry_Run", "--" ++ pyReplaceUnderscores "Dry_Run"]]) := by
  decide

/-- C4, amended: for every parameter of a described callable, a required
parameter becomes the single positional token given by the lower-cased
parameter name, and an optional parameter becomes exactly two flags — `-`
followed by the first character of the *lower-cased, hyphen-replaced* name
and `--` followed by the *lower-cased* name with underscores replaced by
hyphens — both bound to the destination given by the original parameter
name with underscores intact. -/
theorem get_params_flag_forms (item : PyCallable) :
    (get_params item).map (fun e => (e.flags, e.kwargs.dest)) =
      (item.params.filter (fun p => !(p.name = "self"))).map (fun p =>
        match p.default with
        | Option.none => ([pyLower p.name], (Option.none : Option String))
        | Option.some _ =>
          (["-" ++ pyTakeOne (pyReplaceUnderscores (pyLower p.name)),
            "--" ++ pyReplaceUnderscores (pyLower p.name)],
           Option.some p.name)) := by
  unfold get_params
  apply paramLoop_map_eq
  intro p hp
  cases hd : p.default <;> simp [paramEntry, hd]

/-- C5: for every parameter of a described callable, the parameter is marked
required exactly when it declares no default value: a required parameter's
synthesized argument carries neither a `required` nor a `default` keyword,
while an optional parameter's argument always carries `required=False`
together with its declared default. -/
theorem get_params_required_iff_no_default (item : PyCallable) :
    (get_params item).map (fun e => (e.kwargs.required, e.kwargs.default)) =
      (item.params.filter (fun p => !(p.name = "self"))).map (fun p =>
        match p.default with
        | Option.none => ((Option.none : Option Bool), (Option.none : Option PyValue))
        | Option.some dv => (Option.some false, Option.some dv)) := by
  unfold get_params
  apply paramLoop_map_eq
  intro p hp
  cases hd : p.default <;> simp [paramEntry, hd]

/-- C6: the derived value type is the declared annotation exactly when that
annotation is one of `str`, `int`, `bool`, and `str` otherwise — including
when the annotation is absent; every synthesized argument records the
derived type (as argparse `type` for `store` actions, as the `store_true`
action for booleans), and describing an unannotated parameter succeeds,
yielding a `str`-typed argument. -/
theorem valType_exact_or_text :
    valType Ann.aStr = Ann.aStr ∧ valType Ann.aInt = Ann.aInt ∧
    valType Ann.aBool = Ann.aBool ∧ valType Ann.aOther = Ann.aStr ∧
    valType Ann.aNone = Ann.aStr ∧
    (∀ item : PyCallable,
      (get_params item).map (fun e => (e.kwargs.action, e.kwargs.type)) =
        (item.params.filter (fun p => !(p.name = "self"))).map (fun p =>
          if valType p.annot = Ann.aBool then
            ("store_true", (Option.none : Option Ann))
          else ("store", Option.some (valType p.annot)))) ∧
    get_params ⟨Option.none, [⟨"x", Option.none, Ann.aNone⟩]⟩ =
      [{ flags := ["x"],
         kwargs := { action := "store", help := "",
                     type := Option.some Ann.aStr } }] := by
  refine ⟨rfl, rfl, rfl, rfl, rfl, ?_, by decide⟩
  intro item
  unfold get_params
  apply paramLoop_map_eq
  intro p hp
  by_cases hb : valType p.annot = Ann.aBool <;>
    cases hd : p.default <;> simp [paramEntry, hd, hb]

theorem usage_fmt_toks : parseFmt USAGE.data "" false =
    Option.some [FmtTok.field "prog", FmtTok.field "global_opts",
      FmtTok.field "command", FmtTok.field "command_opts",
      FmtTok.field "subcommand", FmtTok.field "subcommand_opts"] := by
  decide

/-- C9: for every program name and every (possibly empty) substitution of
the command and subcommand slots, the built usage string is the
concatenation `{prog}{global_opts}{command}{command_opts}{subcommand}
{subcommand_opts}` in which each unsubstituted placeholder is the literal
token `<command>`, `[subcommand]` or `[args]`, a substituted slot is the
concrete name, and every non-empty segment not already ending in a space
receives one trailing space. -/
theorem build_usage_grammar (progName : String) (cmd sub : Option String) :
    build_usage progName
      (Option.some
        ((match cmd with
          | Option.some c => [("command", c)]
          | Option.none => []) ++
         (match sub with
          | Option.some s => [("subcommand", s)]
          | Option.none => []))) =
      Option.some (spacePad progName ++ spacePad "[args]" ++
        spacePad (cmd.getD "<command>") ++ spacePad "[args]" ++
        spacePad (sub.getD "[subcommand]") ++ spacePad "[args]") ∧
    build_usage progName Option.none =
      Option.some (spacePad progName ++ spacePad "[args]" ++
        spacePad "<command>" ++ spacePad "[args]" ++
        spacePad "[subcommand]" ++ spacePad "[args]") := by
  constructor
  · rcases cmd with _ | c <;> rcases sub with _ | s <;>
      · simp [build_usage, pyDictSet, pyFormat, renderFmt, alookup,
          String.append_assoc, String.append_empty]
        rw [usage_fmt_toks]
        simp [renderFmt, alookup, String.append_assoc, String.append_empty]
  · simp [build_usage, pyDictSet, pyFormat, renderFmt, alookup,
      String.append_assoc, String.append_empty]
    rw [usage_fmt_toks]
    simp [renderFmt, alookup, String.append_assoc, String.append_empty]

theorem charListLe_total : ∀ xs ys : List Char,
    charListLe xs ys = true ∨ charListLe ys xs = true := by
  intro xs
  induction xs with
  | nil => intro ys; exact Or.inl rfl
  | cons a as ih =>
    intro ys
    cases ys with
    | nil => exact Or.inr rfl
    | cons b bs =>
      by_cases hab : a.toNat < b.toNat
      · exact Or.inl (by simp [charListLe, hab])
      · by_cases hba : b.toNat < a.toNat
        · exact Or.inr (by simp [charListLe, hba])
        · rcases ih bs with h | h
          · exact Or.inl (by simp [charListLe, hab, hba, h])
          · exact Or.inr (by simp [charListLe, hab, hba, h])

theorem charListLe_trans : ∀ xs ys zs : List Char,
    charListLe xs ys = true → charListLe ys zs = true →
    charListLe xs zs = true := by
  intro xs
  induction xs with
  | nil => intro ys zs _ _; rfl
  | cons a as ih =>
    intro ys zs h1 h2
    cases ys with
    | nil => simp [charListLe] at h1
    | cons b bs =>
      cases zs with
      | nil => simp [charListLe] at h2
      | cons c cs =>
        by_cases hab : a.toNat < b.toNat
        · by_cases hbc : b.toNat < c.toNat
          · have hac : a.toNat < c.toNat := by omega
            simp [charListLe, hac]
          · by_cases hcb : c.toNat < b.toNat
            · simp [charListLe, hbc, hcb] at h2
            · have hac : a.toNat < c.toNat := by omega
              simp [charListLe, hac]
        · by_cases hba : b.toNat < a.toNat
          · simp [charListLe, hab, hba] at h1
          · have h1' : charListLe as bs = true := by
              simpa [charListLe, hab, hba] using h1
            by_cases hbc : b.toNat < c.toNat
            · have hac : a.toNat < c.toNat := by omega
              simp [charListLe, hac]
            · by_cases hcb : c.toNat < b.toNat
              · simp [charListLe, hbc, hcb] at h2
              · have h2' : charListLe bs cs = true := by
                  simpa [charListLe, hbc, hcb] using h2
                have hac1 : ¬ a.toNat < c.toNat := by omega
                have hac2 : ¬ c.toNat < a.toNat := by omega
                simp [charListLe, hac1, hac2, ih bs cs h1' h2']

theorem nameLe_total (a b : String) : nameLe a b = true ∨ nameLe b a = true :=
  charListLe_total a.data b.data

theorem nameLe_trans {a b c : String} (h1 : nameLe a b = true)
    (h2 : nameLe b c = true) : nameLe a c = true :=
  charListLe_trans a.data b.data c.data h1 h2

theorem perm_insertByName {α : Type} (x : String × α) :
    ∀ l : List (String × α), List.Perm (insertByName x l) (x :: l) := by
  intro l
  induction l with
  | nil => exact List.Perm.refl _
  | cons y ys ih =>
    cases hcmp : nameLe x.1 y.1 with
    | true => simp [insertByName, hcmp]
    | false =>
      simp only [insertByName, hcmp, Bool.false_eq_true, if_false]
      exact (ih.cons y).trans (List.Perm.swap x y ys)

theorem sortByName_perm {α : Type} :
    ∀ ms : List (String × α), List.Perm (sortByName ms) ms := by
  intro ms
  induction ms with
  | nil => exact List.Perm.refl _
  | cons x xs ih => exact (perm_insertByName x (sortByName xs)).trans (ih.cons x)

theorem pairwise_insertByName {α : Type} (x : String × α) :
    ∀ l : List (String × α),
      List.Pairwise (fun a b => nameLe a.1 b.1 = true) l →
      List.Pairwise (fun a b => nameLe a.1 b.1 = true) (insertByName x l) := by
  intro l
  induction l with
  | nil => intro _; simp [insertByName]
  | cons y ys ih =>
    intro hp
    obtain ⟨hy, hys⟩ := List.pairwise_cons.1 hp
    cases hcmp : nameLe x.1 y.1 with
    | true =>
      simp only [insertByName, hcmp, if_true]
      refine List.pairwise_cons.2 ⟨?_, hp⟩
      intro b hb
      rcases List.mem_cons.1 hb with rfl | hbys
      · exact hcmp
      · exact nameLe_trans hcmp (hy b hbys)
    | false =>
      simp only [insertByName, hcmp, Bool.false_eq_true, if_false]
      refine List.pairwise_cons.2 ⟨?_, ih hys⟩
      intro b hb
      have hb' : b ∈ x :: ys := (perm_insertByName x ys).mem_iff.1 hb
      rcases List.mem_cons.1 hb' with rfl | hbys
      · rcases nameLe_total b.1 y.1 with h | h
        · rw [h] at hcmp; cases hcmp
        · exact h
      · exact hy b hbys

theorem sortByName_pairwise {α : Type} :
    ∀ ms : List (String × α),
      List.Pairwise (fun a b => nameLe a.1 b.1 = true) (sortByName ms) := by
  intro ms
  induction ms with
  | nil => exact List.Pairwise.nil
  | cons x xs ih => exact pairwise_insertByName x (sortByName xs) ih

theorem alookup_pyDictSet {α : Type} (k : String) (v : α) (key : String) :
    ∀ d : List (String × α),
      alookup (pyDictSet k v d) key =
        if k = key then Option.some v else alookup d key := by
  intro d
  induction d with
  | nil => by_cases hkey : k = key <;> simp [pyDictSet, alookup, hkey]
  | cons kv rest ih =>
    by_cases hk : kv.1 = k
    · by_cases hkey : k = key
      · subst hkey; simp [pyDictSet, alookup, hk]
      · have hkv : ¬ (kv.1 = key) := by rw [hk]; exact hkey
        simp [pyDictSet, alookup, hk, hkey, hkv]
    · by_cases hkey : kv.1 = key
      · have hkk : ¬ (k = key) := by
          intro h; exact hk (by rw [hkey, h])
        have hkk' : ¬ (key = k) := fun h => hkk h.symm
        simp [pyDictSet, alookup, hk, hkey, hkk, hkk']
      · simp [pyDictSet, alookup, hk, hkey, ih]

theorem find_append_single {α : Type} (p : α → Bool) (x : α) :
    ∀ l : List α,
      (l ++ [x]).find? p =
        match l.find? p with
        | Option.some y => Option.some y
        | Option.none => if p x then Option.some x else Option.none := by
  intro l
  induction l with
  | nil => cases hp : p x <;> simp [List.find?, hp]
  | cons a l ih =>
    cases hp : p a with
    | true => simp [List.find?, hp]
    | false => simp [List.find?, hp, ih]

theorem get_plugin_modules_lookup :
    ∀ (ms : List (String × Nat)) (d : List (String × Nat)) (k : String),
      alookup (ms.foldl (fun d kv => pyDictSet (pyLower kv.1) kv.2 d) d) k =
        match ms.reverse.find? (fun kv => pyLower kv.1 = k) with
        | Option.some kv => Option.some kv.2
        | Option.none => alookup d k := by
  intro ms
  induction ms with
  | nil => intro d k; rfl
  | cons kv ms ih =>
    intro d k
    simp only [List.foldl_cons, List.reverse_cons]
    rw [ih, find_append_single]
    cases hfind : ms.reverse.find? (fun kv => pyLower kv.1 = k) with
    | some kv' => rfl
    | none =>
      rw [alookup_pyDictSet]
      by_cases hk : pyLower kv.1 = k <;> simp [hk]

/-- C10: plugin discovery is total and deterministic even on name
collisions: the members enumerated by `inspect.getmembers` are sorted
ascending by original name (a stable sort, hence a permutation of the
member set); the resulting dict maps a lowered name to the class of the
*last* enumerated member whose lowered name matches (a later member
silently overwriting an earlier colliding one); and every member's
lower-cased name is present in the mapping — no error is raised. -/
theorem get_plugin_modules_spec (members : List (String × Nat)) :
    List.Pairwise (fun a b => nameLe a.1 b.1 = true) (sortByName members) ∧
    List.Perm (sortByName members) members ∧
    (∀ k, alookup (get_plugin_modules members) k =
      Option.map Prod.snd
        ((sortByName members).reverse.find? (fun kv => pyLower kv.1 = k))) ∧
    (∀ n c, (n, c) ∈ members →
      (alookup (get_plugin_modules members) (pyLower n)).isSome = true) := by
  have hlook : ∀ k, alookup (get_plugin_modules members) k =
      Option.map Prod.snd
        ((sortByName members).reverse.find? (fun kv => pyLower kv.1 = k)) := by
    intro k
    unfold get_plugin_modules
    rw [get_plugin_modules_lookup]
    cases hfind : (sortByName members).reverse.find? (fun kv => pyLower kv.1 = k) with
    | some kv => rfl
    | none => rfl
  refine ⟨sortByName_pairwise members, sortByName_perm members, hlook, ?_⟩
  intro n c hmem
  rw [hlook]
  have hmem' : (n, c) ∈ (sortByName members).reverse := by
    rw [List.mem_reverse]
    exact ((sortByName_perm members).mem_iff).2 hmem
  have hsome : ((sortByName members).reverse.find?
      (fun kv => pyLower kv.1 = pyLower n)).isSome = true := by
    rw [List.find?_isSome]
    exact ⟨(n, c), hmem', by simp⟩
  simpa [Option.isSome_map] using hsome

/-- Closed instance of `get_plugin_modules_spec`: with the colliding class
names `ALPHA` and `Alpha`, the lowered key `alpha` is present. -/
theorem get_plugin_modules_spec_witness :
    (alookup (get_plugin_modules [("Alpha", 2), ("ALPHA", 3)])
      (pyLower "Alpha")).isSome = true :=
  (get_plugin_modules_spec [("Alpha", 2), ("ALPHA", 3)]).2.2.2 "Alpha" 2
    (by decide)
